import Mathlib

/-!
Verification of the gemini-cli-mcp-openai-bridge against its specification.

The TypeScript sources are shallowly embedded: JS strings become `List Char`
(so that `String.prototype.split` and `Array.prototype.join` become
`List.splitOn` and `List.intercalate`), JSON values become the inductive
`JValue`, fallible code returns `Except`, and the stateful SSE stream
transformer becomes an explicit fold over the event list.
-/

namespace Bridge

/-- JS strings, modelled as lists of characters so that `split('_')` /
`join('_')` are `List.splitOn '_'` / `List.intercalate ['_']`. -/
abbrev JStr := List Char

/-- The literal "call" prefix of bridge-generated tool-call ids. -/
def callPrefix : JStr := 'c' :: 'a' :: 'l' :: 'l' :: []

/-- The fallback name returned by the id parser when the id does not follow
the `call_<name>_<uuid>` grammar (gemini-client.ts line 110). -/
def unknownToolName : JStr := "unknown_tool_from_id".toList

/-- Tool-call id generation of the stream transformer
(`call_${name}_${randomUUID()}`, stream transformer source line 90).
The `randomUUID()` suffix is passed in as `uuid`. -/
def mkToolCallId (name uuid : JStr) : JStr :=
  callPrefix ++ '_' :: name ++ '_' :: uuid

/-- Embedding of `parseFunctionNameFromId` (gemini-client.ts lines 103-111):
split the id on underscores; when there are more than two segments and the
first is "call", rejoin the middle segments with underscores; otherwise
return the fallback name. -/
def parseFunctionNameFromId (toolCallId : JStr) : JStr :=
  let parts := toolCallId.splitOn '_'
  if parts.length > 2 ∧ parts.head? = some callPrefix then
    List.intercalate ['_'] ((parts.drop 1).take (parts.length - 2))
  else
    unknownToolName

/-! Embedding of the stateful SSE stream transformer
(`createOpenAIStreamTransformer`, stream transformer source lines 32-140).
Input events are the `StreamChunk` union of types.ts; the `args` record of a
`tool_code` event is carried as its JSON serialization, since the transformer
only ever applies `JSON.stringify` to it once, whole.  The `randomUUID()`
calls made per tool-call id are modelled by a supply list threaded through
the state; the per-stream `chatcmpl-` uuid, creation time and model name are
bundled in `StreamCtx`. -/

/-- Input events of the transformer (the `StreamChunk` union of types.ts). -/
inductive StreamChunk where
  | text (data : JStr)
  | reasoning (data : JStr)
  | tool_code (name : JStr) (argsJson : JStr)
deriving DecidableEq, Repr

/-- One entry of a `delta.tool_calls` array; `type` is always the literal
"function" in the source and is omitted. -/
structure ToolCallDelta where
  index : Nat
  id : JStr
  functionName : Option JStr
  functionArguments : Option JStr
deriving DecidableEq, Repr

/-- The `delta` object of an emitted chunk. -/
structure OpenAIDelta where
  role : Option JStr
  content : Option JStr
  tool_calls : Option (List ToolCallDelta)
deriving DecidableEq, Repr

/-- One element of `choices`. -/
structure OpenAIChoice where
  index : Nat
  delta : OpenAIDelta
  finish_reason : Option JStr
deriving DecidableEq, Repr

/-- A wire chunk (`OpenAIChunk` interface); `object` is always the literal
"chat.completion.chunk". -/
structure OpenAIChunk where
  id : JStr
  object : JStr
  created : Nat
  model : JStr
  choices : List OpenAIChoice
deriving DecidableEq, Repr

/-- One SSE frame on the wire: either `data: <json chunk>` or the
`data: [DONE]` sentinel. -/
inductive SseEvent where
  | data (chunk : OpenAIChunk)
  | done
deriving DecidableEq, Repr

/-- Per-stream constants captured at transformer creation: the uuid of the
`chatcmpl-` id, `Math.floor(Date.now() / 1000)`, and the model string. -/
structure StreamCtx where
  chatUuid : JStr
  created : Nat
  model : JStr
deriving DecidableEq, Repr

/-- The mutable state of the transformer closure: `isFirstChunk`,
`toolCallIndex`, plus the supply of future `randomUUID()` results. -/
structure TransformerState where
  isFirstChunk : Bool
  toolCallIndex : Nat
  uuidSupply : List JStr
deriving DecidableEq, Repr

/-- The `createChunk` helper (stream transformer source lines 41-56): a
single choice at index 0 wrapping the given delta and finish_reason. -/
def createChunk (ctx : StreamCtx) (delta : OpenAIDelta) (finish : Option JStr) :
    OpenAIChunk :=
  ⟨"chatcmpl-".toList ++ ctx.chatUuid, "chat.completion.chunk".toList,
    ctx.created, ctx.model, [⟨0, delta, finish⟩]⟩

/-- The `transform` callback (stream transformer source lines 67-129) for one
event.  The role announcement is folded into the local `delta` when
`isFirstChunk` is still set, and `isFirstChunk` is cleared on every event,
whatever its kind.  A text event emits only when its data is truthy
(nonempty); a tool-call event emits a name chunk then an arguments chunk at
the current `toolCallIndex`, consuming one uuid; reasoning events emit
nothing. -/
def transformOne (ctx : StreamCtx) (s : TransformerState) (ev : StreamChunk) :
    TransformerState × List SseEvent :=
  let role : Option JStr := if s.isFirstChunk then some "assistant".toList else none
  match ev with
  | .text d =>
      if d ≠ [] then
        (⟨false, s.toolCallIndex, s.uuidSupply⟩,
          [.data (createChunk ctx ⟨role, some d, none⟩ none)])
      else
        (⟨false, s.toolCallIndex, s.uuidSupply⟩, [])
  | .reasoning _ =>
      (⟨false, s.toolCallIndex, s.uuidSupply⟩, [])
  | .tool_code name argsJson =>
      let uuid := s.uuidSupply.headD []
      let callId := mkToolCallId name uuid
      let nameChunk := createChunk ctx
        ⟨role, none, some [⟨s.toolCallIndex, callId, some name, some []⟩]⟩ none
      let argsChunk := createChunk ctx
        ⟨none, none, some [⟨s.toolCallIndex, callId, none, some argsJson⟩]⟩ none
      (⟨false, s.toolCallIndex + 1, s.uuidSupply.tail⟩,
        [.data nameChunk, .data argsChunk])

/-- Folding `transform` over a whole event sequence, collecting outputs in
emission order. -/
def processEvents (ctx : StreamCtx) (s : TransformerState) :
    List StreamChunk → TransformerState × List SseEvent
  | [] => (s, [])
  | ev :: rest =>
      let out := transformOne ctx s ev
      let outRest := processEvents ctx out.1 rest
      (outRest.1, out.2 ++ outRest.2)

/-- The `flush` callback (stream transformer source lines 131-138): one chunk
whose finish_reason is "tool_calls" when any tool call was emitted and "stop"
otherwise, then the `[DONE]` sentinel. -/
def flushEvents (ctx : StreamCtx) (s : TransformerState) : List SseEvent :=
  let finish : JStr :=
    if s.toolCallIndex > 0 then "tool_calls".toList else "stop".toList
  [.data (createChunk ctx ⟨none, none, none⟩ (some finish)), .done]

/-- The initial closure state: `isFirstChunk = true`, `toolCallIndex = 0`. -/
def initState (uuids : List JStr) : TransformerState := ⟨true, 0, uuids⟩

/-- A complete run of the transformer over a finite upstream event sequence:
the per-event emissions followed by the flush emissions. -/
def runTransformer (ctx : StreamCtx) (uuids : List JStr)
    (events : List StreamChunk) : List SseEvent :=
  let out := processEvents ctx (initState uuids) events
  out.2 ++ flushEvents ctx out.1

/-- Selector: is this input event a tool-call request? -/
def isToolCode : StreamChunk → Bool
  | .tool_code _ _ => true
  | _ => false

/-- Selector: does this input event produce a wire chunk (nonempty text or a
tool-call request)? -/
def contentBearing : StreamChunk → Bool
  | .text d => d ≠ []
  | .tool_code _ _ => true
  | .reasoning _ => false

/-- Selector: is this SSE frame a chunk carrying a `tool_calls` delta? -/
def isToolCallChunk : SseEvent → Bool
  | .data c => c.choices.any fun ch => ch.delta.tool_calls.isSome
  | .done => false

/-- Selector: is this SSE frame a chunk carrying a non-null finish_reason? -/
def hasFinishReason : SseEvent → Bool
  | .data c => c.choices.any fun ch => ch.finish_reason.isSome
  | .done => false

/-- Selector: is this SSE frame the `[DONE]` sentinel? -/
def isDone : SseEvent → Bool
  | .data _ => false
  | .done => true

/-- The `content` strings carried by the frames of an output, in order. -/
def contentsOf (out : List SseEvent) : List JStr :=
  out.flatMap fun e =>
    match e with
    | .data c => c.choices.flatMap fun ch => ch.delta.content.toList
    | .done => []

/-- Selector: does this SSE frame carry the role announcement
`role: "assistant"` in some delta? -/
def carriesRole : SseEvent → Bool
  | .data c => c.choices.any fun ch => ch.delta.role = some "assistant".toList
  | .done => false

/-- How many frames of an output carry the role announcement. -/
def roleAnnouncements (out : List SseEvent) : Nat :=
  (out.filter carriesRole).length

/-- The expected output frames for a run over nonempty text deltas only:
one content chunk per delta in order, the first carrying the role
announcement. -/
def contentChunksFor (ctx : StreamCtx) (first : Bool) : List JStr → List SseEvent
  | [] => []
  | d :: rest =>
      .data (createChunk ctx
          ⟨if first then some "assistant".toList else none, some d, none⟩ none)
        :: contentChunksFor ctx false rest

/-! Embedding of the session registry branch of the tool-protocol endpoint
handler (`GcliMcpBridge.start`, bridge.ts `app.all` callback).  A session is
an opaque pair of instance identities; asynchronous creation is collapsed to
its net effect on the session map, parametrised by whether creation
succeeds, the freshly generated session id, and the freshly built pair. -/

/-- One stored session: an isolated McpServer / transport pair, identified
only by instance identity here. -/
structure McpSession where
  serverId : Nat
  transportId : Nat
deriving DecidableEq, Repr

/-- The JSON-RPC-shaped error body sent on a bad request: a jsonrpc version,
an error code and message, and a null id. -/
structure JsonRpcErrorBody where
  jsonrpc : String
  code : Int
  message : String
  idNull : Bool
deriving DecidableEq, Repr

/-- The observable outcome of one tool-protocol request. -/
inductive McpHttpResponse where
  | handled (session : McpSession)
  | jsonRpcError (status : Nat) (body : JsonRpcErrorBody)
  | createFailed (status : Nat)
  | handlerThrew (status : Nat)
deriving DecidableEq, Repr

/-- The member names every plain `{}` object inherits from
`Object.prototype`, all of which bracket lookup finds even though they are
not own keys of the session map. -/
def objectProtoKeys : List String :=
  ["constructor", "hasOwnProperty", "isPrototypeOf", "propertyIsEnumerable",
   "toLocaleString", "toString", "valueOf", "__proto__", "__defineGetter__",
   "__defineSetter__", "__lookupGetter__", "__lookupSetter__"]

/-- What `this.sessions[sessionId]` can evaluate to on the `{}`-literal map:
`undefined`, a stored session (own key, shadowing the prototype), or an
inherited `Object.prototype` member — a truthy value that is not a
session. -/
inductive SessionLookup where
  | noSession
  | stored (s : McpSession)
  | protoMember
deriving DecidableEq, Repr

/-- Bracket lookup on the `{}`-backed session map: an own key wins,
otherwise the prototype chain is consulted before yielding `undefined`. -/
def bracketLookup (sessions : List (String × McpSession)) (sid : String) :
    SessionLookup :=
  match sessions.lookup sid with
  | some s => .stored s
  | none => if sid ∈ objectProtoKeys then .protoMember else .noSession

/-- The expression `sessionId ? this.sessions[sessionId] : undefined`: a
falsy (absent or empty) header yields no session, otherwise bracket lookup
on the map — including its prototype chain — is performed. -/
def findSession (sessions : List (String × McpSession))
    (sessionId : Option String) : SessionLookup :=
  match sessionId with
  | none => .noSession
  | some sid => if sid = "" then .noSession else bracketLookup sessions sid

/-- One pass through the `app.all` handler body (bridge.ts): a truthy
lookup result skips the `!session` branch, so a stored session is forwarded
to its transport while an inherited prototype member reaches
`session.transport.handleRequest`, whose TypeError the catch answers with
status 500; an unknown session with an initialize payload builds and stores
a fresh pair (or answers 500 if creation fails); an unknown session with any
other payload answers 400 with the JSON-RPC error body and leaves the map
untouched. -/
def handleMcpRequest (sessions : List (String × McpSession))
    (sessionId : Option String) (isInit creationOk : Bool)
    (newId : String) (newSession : McpSession) :
    McpHttpResponse × List (String × McpSession) :=
  match findSession sessions sessionId with
  | .stored sess => (.handled sess, sessions)
  | .protoMember => (.handlerThrew 500, sessions)
  | .noSession =>
    if isInit then
      if creationOk then
        (.handled newSession, (newId, newSession) :: sessions)
      else
        (.createFailed 500, sessions)
    else
      (.jsonRpcError 400
        ⟨"2.0", -32000, "Bad Request: Mcp-Session-Id header is required", true⟩,
        sessions)

/-! Embedding of JSON values and of the tool-result payload dispatch of the
message translator (`openAIMessageToGemini`, gemini-client.ts lines
153-190).  `JSON.parse` on the message content is modelled by its outcome:
`none` for a parse failure, `some v` for a successful parse to `v`. -/

/-- JSON values; numbers are carried abstractly as integers since no
arithmetic is ever performed on them. -/
inductive JValue where
  | null
  | bool (b : Bool)
  | num (n : Int)
  | str (s : String)
  | arr (elems : List JValue)
  | obj (fields : List (String × JValue))

/-- The test `typeof parsed === 'object' && parsed !== null &&
!Array.isArray(parsed)`: true exactly for plain objects. -/
def isPlainObject : JValue → Bool
  | .obj _ => true
  | _ => false

/-- The payload dispatch for a tool-result message: an object parse result
passes through unchanged; any other parse result is wrapped as the value of
a single "output" field; a parse failure wraps the raw string the same
way. -/
def toolResponsePayload (raw : String) (parsed : Option JValue) : JValue :=
  match parsed with
  | some v => if isPlainObject v then v else .obj [("output", v)]
  | none => .obj [("output", .str raw)]

/-- The internal turn built for a tool-result message: Gemini holds a
functionResponse part under the "user" role. -/
structure GeminiToolContent where
  role : String
  responseId : Option JStr
  responseName : JStr
  responsePayload : JValue

/-- The `msg.role === 'tool'` branch of `openAIMessageToGemini`: recover the
function name from `msg.tool_call_id || ''` and attach the dispatched
payload. -/
def openAIToolMessageToGemini (toolCallId : Option JStr) (raw : String)
    (parsed : Option JValue) : GeminiToolContent :=
  ⟨"user", toolCallId, parseFunctionNameFromId (toolCallId.getD []),
    toolResponsePayload raw parsed⟩

/-! Embedding of the chat-completions router gate on the `stream` flag
(`createOpenAIRouter`, openai.ts lines 31-45). -/

/-- The observable outcome of the gate: fail fast with a JSON error, or
proceed to open the event-stream. -/
inductive ChatCompletionOutcome where
  | notImplemented (status : Nat) (errorMessage : String)
  | streaming
deriving DecidableEq, Repr

/-- Whether a status code is a 2xx success. -/
def is2xx (n : Nat) : Prop := 200 ≤ n ∧ n < 300

/-- The computation `body.stream !== false`: only the literal false disables
streaming; absent defaults to streaming. -/
def streamFlag : Option Bool → Bool
  | some false => false
  | _ => true

/-- The router's dispatch on the stream flag: `stream:false` is answered
with 501 and a JSON error body before any event-stream is opened. -/
def handleChatCompletions (stream : Option Bool) : ChatCompletionOutcome :=
  if streamFlag stream then .streaming
  else .notImplemented 501 "Non-streaming responses are not yet implemented."

/-! Embedding of the tool-choice translation (`sendMessageStream`,
gemini-client.ts lines 261-274). -/

/-- A JS `tool_choice` value: either a string directive or an object with
optional `type` and `function.name` fields. -/
inductive JsToolChoice where
  | choiceStr (s : String)
  | choiceObj (ctype : Option String) (functionName : Option String)
deriving DecidableEq, Repr

/-- The two function-calling modes the translation can produce. -/
inductive FunctionCallingMode where
  | ANY
  | AUTO
deriving DecidableEq, Repr

/-- The `functionCallingConfig` object assembled by the translation. -/
structure FunctionCallingConfig where
  mode : FunctionCallingMode
  allowedFunctionNames : Option (List String)
deriving DecidableEq, Repr

/-- JS truthiness of a `tool_choice` value: only the empty string is falsy. -/
def toolChoiceTruthy : JsToolChoice → Bool
  | .choiceStr s => s ≠ ""
  | .choiceObj _ _ => true

/-- The translation: `if (tool_choice && tool_choice !== 'auto')` set a
toolConfig whose mode is ANY exactly when `tool_choice.type === 'function'`
and AUTO otherwise, with `allowedFunctionNames` from `tool_choice.function`
when present. -/
def buildToolConfig (tc : Option JsToolChoice) : Option FunctionCallingConfig :=
  match tc with
  | none => none
  | some c =>
    if toolChoiceTruthy c = true ∧ c ≠ JsToolChoice.choiceStr "auto" then
      some ⟨(match c with
          | .choiceObj (some t) _ => if t = "function" then .ANY else .AUTO
          | _ => .AUTO),
        (match c with
          | .choiceObj _ (some n) => some [n]
          | _ => none)⟩
    else none

/-! Embedding of the JSON-Schema-to-Zod translator (`convertJsonSchemaToZod`
and its inner `convertProperty`, bridge.ts lines 245-296).  Zod validators
become the `ZodTy` tree with an acceptance semantics; JS falsiness tests
become `truthy`; the one JS expression that can raise — calling `.includes`
on a truthy non-array, non-string `required` value — is modelled by the
translator returning `Except.error`. -/

/-- JS truthiness of a JSON value (there are no NaN numbers in the model). -/
def truthy : JValue → Bool
  | .null => false
  | .bool b => b
  | .num n => n ≠ 0
  | .str s => s ≠ ""
  | .arr _ => true
  | .obj _ => true

/-- JS truthiness where `none` stands for `undefined`. -/
def truthyOpt : Option JValue → Bool
  | none => false
  | some v => truthy v

/-- JS property access `v[k]`: a field of an object, `undefined` elsewhere. -/
def getField : JValue → String → Option JValue
  | .obj fs, k => fs.lookup k
  | _, _ => none

/-- `Object.entries`, modelled for object values; every claim here concerns
object-shaped `properties`, so other (pathological) values contribute no
entries. -/
def jsEntries : JValue → List (String × JValue)
  | .obj fs => fs
  | _ => []

mutual

/-- The tree of Zod validators the translator can build: primitives,
`z.any()`, `z.array(elem)`, and `z.object(shape).passthrough()`. -/
inductive ZodTy where
  | anyTy
  | stringTy
  | numberTy
  | booleanTy
  | arrayTy (elem : ZodTy)
  | objectTy (shape : ZodShape)

/-- An object shape: each declared key with its validator and whether it was
marked `.optional()`. -/
inductive ZodShape where
  | nil
  | cons (key : String) (ty : ZodTy) (optional : Bool) (rest : ZodShape)

end

/-- Acceptance semantics of the validator tree: `z.any()` accepts anything,
primitives accept exactly their JSON type, `z.array` accepts arrays of
accepted elements, and a passthrough object accepts objects whose declared
keys validate (absent keys only when optional) with undeclared keys passing
through unvalidated.  `none` stands for an absent (undefined) value. -/
def zodAccepts : ZodTy → Option JValue → Bool
  | .anyTy, _ => true
  | .stringTy, some (.str _) => true
  | .stringTy, _ => false
  | .numberTy, some (.num _) => true
  | .numberTy, _ => false
  | .booleanTy, some (.bool _) => true
  | .booleanTy, _ => false
  | .arrayTy e, some (.arr xs) => xs.all fun x => zodAccepts e (some x)
  | .arrayTy _, _ => false
  | .objectTy .nil, some (.obj _) => true
  | .objectTy (.cons k t opt rest), some (.obj fs) =>
      (match fs.lookup k with
        | some v => zodAccepts t (some v)
        | none => opt) &&
      zodAccepts (.objectTy rest) (some (.obj fs))
  | .objectTy _, _ => false
termination_by t _ => sizeOf t

/-- The test `jsonSchema.required && jsonSchema.required.includes(key)`.
A falsy `required` short-circuits to false; an array uses element equality
(only string elements can equal the string key); a string uses substring
containment; any other truthy value has no `.includes` method and raises a
TypeError in JS, modelled as an error. -/
def requiredIncludes (required : Option JValue) (key : String) :
    Except String Bool :=
  match required with
  | none => .ok false
  | some r =>
    if truthy r = false then .ok false
    else
      match r with
      | .arr xs => .ok (xs.any fun v =>
          match v with
          | .str s => s = key
          | _ => false)
      | .str s => .ok (decide (List.IsInfix key.toList s.toList))
      | _ => .error "TypeError: includes is not a function"

/-- A value is a safe `required` field when it is falsy, an array, or a
string — exactly the values on which `requiredIncludes` cannot raise. -/
def reqFieldOk (v : JValue) : Bool :=
  (!truthy v) ||
    (match v with
      | .arr _ => true
      | .str _ => true
      | _ => false)

mutual

/-- Every field named "required" anywhere inside the value is safe in the
sense of `reqFieldOk` (the hypothesis under which translation cannot
raise). -/
def requiredOk : JValue → Bool
  | .obj fs => requiredOkFields fs
  | .arr xs => requiredOkList xs
  | _ => true

/-- Pointwise `requiredOk` over object fields, with the `reqFieldOk` check
on fields named "required". -/
def requiredOkFields : List (String × JValue) → Bool
  | [] => true
  | (k, v) :: rest =>
      (if k = "required" then reqFieldOk v else true) &&
        requiredOk v && requiredOkFields rest

/-- Pointwise `requiredOk` over array elements. -/
def requiredOkList : List JValue → Bool
  | [] => true
  | v :: rest => requiredOk v && requiredOkList rest

end

mutual

/-- The inner `convertProperty` arrow function (bridge.ts lines 249-279):
falsy property or falsy type yields `z.any()`; the recognised primitive
type strings map directly; `array` recurses into a truthy `items` and falls
back to `z.array(z.any())` otherwise; `object` recurses through the outer
translator into a passthrough object; anything else degrades to
`z.any()`. -/
def convertProperty (prop : JValue) : Except String ZodTy :=
  if truthy prop = false then .ok .anyTy
  else if truthyOpt (getField prop "type") = false then .ok .anyTy
  else
    match getField prop "type" with
    | some (.str "string") => .ok .stringTy
    | some (.str "number") => .ok .numberTy
    | some (.str "boolean") => .ok .booleanTy
    | some (.str "array") =>
        match hit : getField prop "items" with
        | none => .ok (.arrayTy .anyTy)
        | some it =>
            if truthy it = false then .ok (.arrayTy .anyTy)
            else
              match convertProperty it with
              | .error e => .error e
              | .ok t => .ok (.arrayTy t)
    | some (.str "object") =>
        match convertJsonSchemaToZod prop with
        | .error e => .error e
        | .ok sh => .ok (.objectTy sh)
    | _ => .ok .anyTy
termination_by 2 * sizeOf prop + 1
decreasing_by
  · have hlk : ∀ (fs : List (String × JValue)) (k : String) (w : JValue),
        List.lookup k fs = some w → sizeOf w < sizeOf fs := by
      intro fs
      induction fs with
      | nil => intro k w hw; simp [List.lookup] at hw
      | cons kv rest ih =>
        intro k w hw
        obtain ⟨k', v'⟩ := kv
        rw [List.lookup] at hw
        by_cases hk : (k == k') = true
        · rw [hk] at hw
          injection hw with hw
          subst hw
          simp only [List.cons.sizeOf_spec, Prod.mk.sizeOf_spec]
          omega
        · rw [Bool.not_eq_true] at hk
          rw [hk] at hw
          have := ih k w hw
          simp only [List.cons.sizeOf_spec]
          omega
    have hsz : sizeOf it < sizeOf prop := by
      cases prop with
      | obj fs => have := hlk fs "items" it hit; simp only [JValue.obj.sizeOf_spec]; omega
      | null => simp [getField] at hit
      | bool b => simp [getField] at hit
      | num n => simp [getField] at hit
      | str s => simp [getField] at hit
      | arr xs => simp [getField] at hit
    omega
  · omega

/-- The outer `convertJsonSchemaToZod` (bridge.ts lines 245-296): a falsy
schema or falsy `properties` yields the empty shape; otherwise each declared
property is converted in order and marked optional unless listed in
`required`. -/
def convertJsonSchemaToZod (jsonSchema : JValue) : Except String ZodShape :=
  if truthy jsonSchema = false then .ok .nil
  else
    match hp : getField jsonSchema "properties" with
    | none => .ok .nil
    | some props =>
        if truthy props = false then .ok .nil
        else convertShapeFields (getField jsonSchema "required") (jsEntries props)
termination_by 2 * sizeOf jsonSchema
decreasing_by
  · have hlk : ∀ (fs : List (String × JValue)) (k : String) (w : JValue),
        List.lookup k fs = some w → sizeOf w < sizeOf fs := by
      intro fs
      induction fs with
      | nil => intro k w hw; simp [List.lookup] at hw
      | cons kv rest ih =>
        intro k w hw
        obtain ⟨k', v'⟩ := kv
        rw [List.lookup] at hw
        by_cases hk : (k == k') = true
        · rw [hk] at hw
          injection hw with hw
          subst hw
          simp only [List.cons.sizeOf_spec, Prod.mk.sizeOf_spec]
          omega
        · rw [Bool.not_eq_true] at hk
          rw [hk] at hw
          have := ih k w hw
          simp only [List.cons.sizeOf_spec]
          omega
    have hprops : sizeOf props < sizeOf jsonSchema := by
      cases jsonSchema with
      | obj fs => have := hlk fs "properties" props hp; simp only [JValue.obj.sizeOf_spec]; omega
      | null => simp [getField] at hp
      | bool b => simp [getField] at hp
      | num n => simp [getField] at hp
      | str s => simp [getField] at hp
      | arr xs => simp [getField] at hp
    have hent : sizeOf (jsEntries props) ≤ sizeOf props := by
      cases props with
      | obj fs => simp [jsEntries]
      | null => simp [jsEntries]
      | bool b => simp [jsEntries]
      | num n => simp [jsEntries]
      | str s => simp [jsEntries]
      | arr xs => simp [jsEntries]
    omega

/-- The `for (const [key, prop] of Object.entries(...))` loop body: convert
the property, then evaluate the `required` membership test (which can
raise), then continue with the remaining entries. -/
def convertShapeFields (required : Option JValue)
    (entries : List (String × JValue)) : Except String ZodShape :=
  match entries with
  | [] => .ok .nil
  | (k, v) :: rest =>
      match convertProperty v with
      | .error e => .error e
      | .ok ty =>
          match requiredIncludes required k with
          | .error e => .error e
          | .ok inc =>
              match convertShapeFields required rest with
              | .error e => .error e
              | .ok tail => .ok (.cons k ty (!inc) tail)
termination_by 2 * sizeOf entries + 1
decreasing_by
  · simp only [List.cons.sizeOf_spec, Prod.mk.sizeOf_spec]
    omega
  · simp only [List.cons.sizeOf_spec]
    omega

end

/-! Lemmas about splitting on a separator, used for the tool-call id grammar. -/

theorem modifyHead_append {α : Type} (f : α → α) (l₁ l₂ : List α) (h : l₁ ≠ []) :
    (l₁ ++ l₂).modifyHead f = l₁.modifyHead f ++ l₂ := by
  cases l₁ with
  | nil => exact absurd rfl h
  | cons a t => simp

theorem splitOnP_append {α : Type} (p : α → Bool) (xs ys : List α) (x : α) (hx : p x) :
    (xs ++ x :: ys).splitOnP p = xs.splitOnP p ++ ys.splitOnP p := by
  induction xs with
  | nil => simp [List.splitOnP_cons, hx, List.splitOnP_nil]
  | cons a t ih =>
    by_cases ha : p a
    · simp [List.splitOnP_cons, ha, ih]
    · simp only [List.cons_append, List.splitOnP_cons, ha, Bool.false_eq_true, if_false, ih]
      exact modifyHead_append _ _ _ (List.splitOnP_ne_nil p t)

theorem splitOn_append (xs ys : List Char) :
    (xs ++ '_' :: ys).splitOn '_' = xs.splitOn '_' ++ ys.splitOn '_' := by
  simpa [List.splitOn] using
    splitOnP_append (· == '_') xs ys '_' (by simp)

theorem splitOn_no_sep (xs : List Char) (h : '_' ∉ xs) : xs.splitOn '_' = [xs] := by
  simp only [List.splitOn]
  exact List.splitOnP_eq_single _ _ (fun x hx hb => h (by simpa using (eq_of_beq hb) ▸ hx))

/-- C1. Every bridge-generated tool-call id of the form
`call_<name>_<uuid>` (where the uuid suffix contains no underscore, as
`randomUUID()` output never does) parses back to exactly the original
function name, including names that contain underscores. -/
theorem c1_id_roundtrip (name uuid : JStr) (h : '_' ∉ uuid) :
    parseFunctionNameFromId (mkToolCallId name uuid) = name := by
  have hcall : callPrefix.splitOn '_' = [callPrefix] :=
    splitOn_no_sep _ (by decide)
  have huuid : uuid.splitOn '_' = [uuid] := splitOn_no_sep _ h
  have hsplit : (mkToolCallId name uuid).splitOn '_' =
      callPrefix :: (name.splitOn '_' ++ [uuid]) := by
    have hshape : mkToolCallId name uuid = callPrefix ++ '_' :: (name ++ '_' :: uuid) := by
      simp [mkToolCallId]
    rw [hshape, splitOn_append callPrefix (name ++ '_' :: uuid), hcall,
      splitOn_append name uuid, huuid]
    simp
  have hne : name.splitOn '_' ≠ [] := by
    simp only [List.splitOn]
    exact List.splitOnP_ne_nil _ _
  obtain ⟨q, qs, hq⟩ : ∃ q qs, name.splitOn '_' = q :: qs :=
    List.exists_cons_of_ne_nil hne
  rw [parseFunctionNameFromId, hsplit]
  have hlen : (callPrefix :: (name.splitOn '_' ++ [uuid])).length =
      (name.splitOn '_').length + 2 := by simp
  rw [if_pos]
  · have htake : ((callPrefix :: (name.splitOn '_' ++ [uuid])).drop 1).take
        ((callPrefix :: (name.splitOn '_' ++ [uuid])).length - 2) = name.splitOn '_' := by
      simp only [List.drop_one, List.tail_cons, hlen, Nat.add_sub_cancel]
      exact List.take_left _ _
    rw [htake]
    exact List.intercalate_splitOn name '_'
  · constructor
    · rw [hlen, hq]
      simp
    · rfl

/-- C1 witness: a concrete round-trip through the id grammar, for a function
name that itself contains underscores. -/
theorem c1_id_roundtrip_witness :
    parseFunctionNameFromId
        (mkToolCallId "run_shell_command".toList "3fa85f64-5717".toList) =
      "run_shell_command".toList :=
  c1_id_roundtrip "run_shell_command".toList "3fa85f64-5717".toList (by decide)

/-! Structural lemmas about one transformer step and about folding it over a
whole event sequence. -/

theorem transformOne_fst (ctx : StreamCtx) (s : TransformerState) (ev : StreamChunk) :
    (transformOne ctx s ev).1 =
      ⟨false, s.toolCallIndex + (if isToolCode ev then 1 else 0),
        if isToolCode ev then s.uuidSupply.tail else s.uuidSupply⟩ := by
  cases ev with
  | text d =>
    by_cases hd : d = []
    · simp [transformOne, isToolCode, hd]
    · simp [transformOne, isToolCode, hd]
  | reasoning d => simp [transformOne, isToolCode]
  | tool_code n a => simp [transformOne, isToolCode]

theorem transformOne_mem (ctx : StreamCtx) (s : TransformerState) (ev : StreamChunk)
    (e : SseEvent) (h : e ∈ (transformOne ctx s ev).2) :
    ∃ δ, e = .data (createChunk ctx δ none) := by
  cases ev with
  | text d =>
    by_cases hd : d = []
    · simp [transformOne, hd] at h
    · simp [transformOne, hd] at h
      exact ⟨_, h⟩
  | reasoning d => simp [transformOne] at h
  | tool_code n a =>
    simp [transformOne] at h
    rcases h with h | h
    · exact ⟨_, h⟩
    · exact ⟨_, h⟩

theorem processEvents_mem (ctx : StreamCtx) (s : TransformerState)
    (evs : List StreamChunk) (e : SseEvent)
    (h : e ∈ (processEvents ctx s evs).2) :
    ∃ δ, e = .data (createChunk ctx δ none) := by
  induction evs generalizing s with
  | nil => simp [processEvents] at h
  | cons ev rest ih =>
    simp only [processEvents, List.mem_append] at h
    rcases h with h | h
    · exact transformOne_mem ctx s ev e h
    · exact ih _ h

theorem processEvents_toolCallIndex (ctx : StreamCtx) (s : TransformerState)
    (evs : List StreamChunk) :
    (processEvents ctx s evs).1.toolCallIndex =
      s.toolCallIndex + (evs.filter isToolCode).length := by
  induction evs generalizing s with
  | nil => simp [processEvents]
  | cons ev rest ih =>
    simp only [processEvents]
    rw [ih, transformOne_fst]
    by_cases hev : isToolCode ev
    · simp only [hev, List.filter_cons, if_pos, List.length_cons, if_true]
      omega
    · simp [hev, List.filter_cons]

theorem processEvents_uuidSupply (ctx : StreamCtx) (s : TransformerState)
    (evs : List StreamChunk) :
    (processEvents ctx s evs).1.uuidSupply =
      s.uuidSupply.drop (evs.filter isToolCode).length := by
  induction evs generalizing s with
  | nil => simp [processEvents]
  | cons ev rest ih =>
    simp only [processEvents]
    rw [ih, transformOne_fst]
    by_cases hev : isToolCode ev <;>
      simp [hev, List.filter_cons, List.tail_drop, List.drop_succ_cons]

theorem processEvents_isFirst (ctx : StreamCtx) (s : TransformerState)
    (evs : List StreamChunk) :
    (processEvents ctx s evs).1.isFirstChunk = (s.isFirstChunk && evs.isEmpty) := by
  induction evs generalizing s with
  | nil => simp [processEvents]
  | cons ev rest ih =>
    simp only [processEvents]
    rw [ih, transformOne_fst]
    simp

/-- C10. Within one streaming response every emitted chunk carries the same
`chatcmpl-` id, the same creation timestamp, the same model string, the
literal object "chat.completion.chunk", and exactly one choice at index 0. -/
theorem c10_header_invariant (ctx : StreamCtx) (uuids : List JStr)
    (events : List StreamChunk) (c : OpenAIChunk)
    (h : SseEvent.data c ∈ runTransformer ctx uuids events) :
    c.id = "chatcmpl-".toList ++ ctx.chatUuid ∧
    c.object = "chat.completion.chunk".toList ∧
    c.created = ctx.created ∧
    c.model = ctx.model ∧
    ∃ δ fr, c.choices = [⟨0, δ, fr⟩] := by
  have hshape : ∃ δ fr, c = createChunk ctx δ fr := by
    rw [runTransformer, List.mem_append] at h
    rcases h with h | h
    · obtain ⟨δ, hδ⟩ := processEvents_mem ctx _ events _ h
      exact ⟨δ, none, by simpa using hδ⟩
    · simp only [flushEvents, List.mem_cons, List.mem_singleton] at h
      rcases h with h | h
      · exact ⟨_, _, by simpa using h⟩
      · simp at h
  obtain ⟨δ, fr, rfl⟩ := hshape
  exact ⟨rfl, rfl, rfl, rfl, δ, fr, rfl⟩

/-! Lemmas characterising runs over text-only event sequences. -/

theorem processEvents_texts (ctx : StreamCtx) (s : TransformerState)
    (ds : List JStr) (h : ∀ d ∈ ds, d ≠ []) :
    processEvents ctx s (ds.map StreamChunk.text) =
      (⟨s.isFirstChunk && ds.isEmpty, s.toolCallIndex, s.uuidSupply⟩,
        contentChunksFor ctx s.isFirstChunk ds) := by
  induction ds generalizing s with
  | nil => simp [processEvents, contentChunksFor]
  | cons d rest ih =>
    have hd : d ≠ [] := h d (List.mem_cons_self d rest)
    have hrest : ∀ x ∈ rest, x ≠ [] := fun x hx => h x (List.mem_cons_of_mem d hx)
    simp only [List.map_cons, processEvents, transformOne, hd, ne_eq,
      not_false_iff, if_true, ih _ hrest, contentChunksFor]
    simp

theorem contentsOf_contentChunksFor (ctx : StreamCtx) (b : Bool) (ds : List JStr) :
    contentsOf (contentChunksFor ctx b ds) = ds := by
  induction ds generalizing b with
  | nil => simp [contentsOf, contentChunksFor]
  | cons d rest ih =>
    have hh : contentsOf (contentChunksFor ctx b (d :: rest)) =
        d :: contentsOf (contentChunksFor ctx false rest) := by
      cases b
      · rfl
      · rfl
    rw [hh, ih false]

/-- C4 counterexample: the claim promises one content chunk per text-delta
event, but a text-delta whose data is the empty string is dropped by the
`if (chunk.data)` truthiness test, so a stream of one empty text-delta event
yields zero content chunks rather than one. -/
theorem c4_text_stream_counterexample :
    contentsOf (runTransformer ⟨[], 0, []⟩ [] [StreamChunk.text []]) = [] ∧
    (contentsOf (runTransformer ⟨[], 0, []⟩ [] [StreamChunk.text []])).length ≠ 1 := by
  constructor
  · rfl
  · decide

/-- C4 amended: for a stream of N text-delta events whose delta texts are all
nonempty (and no tool-call events), the transformer emits exactly N content
chunks, one per event in source order with content equal to the delta text,
then exactly one chunk with finish_reason "stop", then the `[DONE]`
sentinel. -/
theorem c4_text_stream_amended (ctx : StreamCtx) (uuids : List JStr)
    (ds : List JStr) (h : ∀ d ∈ ds, d ≠ []) :
    runTransformer ctx uuids (ds.map StreamChunk.text) =
      contentChunksFor ctx true ds ++
        [.data (createChunk ctx ⟨none, none, none⟩ (some "stop".toList)), .done] ∧
    contentsOf (runTransformer ctx uuids (ds.map StreamChunk.text)) = ds := by
  have hrun : runTransformer ctx uuids (ds.map StreamChunk.text) =
      contentChunksFor ctx true ds ++
        [.data (createChunk ctx ⟨none, none, none⟩ (some "stop".toList)), .done] := by
    rw [runTransformer, processEvents_texts ctx _ ds h]
    simp [flushEvents, initState]
  refine ⟨hrun, ?_⟩
  rw [hrun]
  have hflush : contentsOf
      [SseEvent.data (createChunk ctx ⟨none, none, none⟩ (some "stop".toList)),
        SseEvent.done] = [] := rfl
  simp only [contentsOf, List.flatMap_append] at hflush ⊢
  rw [hflush, List.append_nil]
  exact contentsOf_contentChunksFor ctx true ds

/-- C4 witness: the amended statement applied to a concrete two-delta
stream. -/
theorem c4_text_stream_amended_witness :
    runTransformer ⟨"u".toList, 3, "m".toList⟩ []
        (["hi".toList, "there".toList].map StreamChunk.text) =
      contentChunksFor ⟨"u".toList, 3, "m".toList⟩ true ["hi".toList, "there".toList] ++
        [.data (createChunk ⟨"u".toList, 3, "m".toList⟩ ⟨none, none, none⟩
          (some "stop".toList)), .done] ∧
    contentsOf (runTransformer ⟨"u".toList, 3, "m".toList⟩ []
        (["hi".toList, "there".toList].map StreamChunk.text)) =
      ["hi".toList, "there".toList] :=
  c4_text_stream_amended ⟨"u".toList, 3, "m".toList⟩ []
    ["hi".toList, "there".toList] (by decide)

/-! Lemmas about the role announcement. -/

theorem roleAnnouncements_append (a b : List SseEvent) :
    roleAnnouncements (a ++ b) = roleAnnouncements a + roleAnnouncements b := by
  simp [roleAnnouncements, List.filter_append]

theorem transformOne_role_false (ctx : StreamCtx) (s : TransformerState)
    (ev : StreamChunk) (hs : s.isFirstChunk = false) :
    ∀ e ∈ (transformOne ctx s ev).2, carriesRole e = false := by
  intro e he
  cases ev with
  | text d =>
    by_cases hd : d = []
    · simp [transformOne, hd] at he
    · simp [transformOne, hd, hs] at he
      subst he
      simp [carriesRole, createChunk]
  | reasoning d => simp [transformOne] at he
  | tool_code n a =>
    simp [transformOne, hs] at he
    rcases he with rfl | rfl
    · simp [carriesRole, createChunk]
    · simp [carriesRole, createChunk]

theorem roleAnnouncements_eq_zero (out : List SseEvent)
    (h : ∀ e ∈ out, carriesRole e = false) : roleAnnouncements out = 0 := by
  rw [roleAnnouncements, List.length_eq_zero]
  exact List.filter_eq_nil_iff.mpr fun a ha => by simp [h a ha]

theorem processEvents_role_zero (ctx : StreamCtx) (s : TransformerState)
    (evs : List StreamChunk) (hs : s.isFirstChunk = false) :
    roleAnnouncements (processEvents ctx s evs).2 = 0 := by
  induction evs generalizing s with
  | nil => simp [processEvents, roleAnnouncements]
  | cons ev rest ih =>
    simp only [processEvents]
    rw [roleAnnouncements_append]
    have h1 : roleAnnouncements (transformOne ctx s ev).2 = 0 :=
      roleAnnouncements_eq_zero _ (transformOne_role_false ctx s ev hs)
    have h2 : roleAnnouncements (processEvents ctx (transformOne ctx s ev).1 rest).2 = 0 :=
      ih _ (by rw [transformOne_fst])
    omega

theorem flushEvents_role_zero (ctx : StreamCtx) (s : TransformerState) :
    roleAnnouncements (flushEvents ctx s) = 0 := by
  refine roleAnnouncements_eq_zero _ fun e he => ?_
  simp only [flushEvents, List.mem_cons, List.not_mem_nil, or_false] at he
  rcases he with rfl | rfl
  · simp [carriesRole, createChunk]
  · rfl

/-- C8 counterexample: the claim says ignorable events preceding the first
content-bearing event do not consume the role announcement, but the code
clears `isFirstChunk` on every event.  After one reasoning event, the
content chunk produced for a text-delta carries no role field, and in fact
no frame of the stream ever announces the role. -/
theorem c8_role_counterexample :
    contentsOf (runTransformer ⟨[], 0, []⟩ []
        [StreamChunk.reasoning [], StreamChunk.text ['h']]) = [['h']] ∧
    roleAnnouncements (runTransformer ⟨[], 0, []⟩ []
        [StreamChunk.reasoning [], StreamChunk.text ['h']]) = 0 := by
  constructor
  · rfl
  · rfl

/-- C8 amended: the role announcement is attached to the delta built for the
first event processed, whatever its kind, and every event consumes it.
Hence a stream announces the role exactly once when its first event is
content-bearing (nonempty text or a tool-call request) — on the very first
emitted frame — and never otherwise; in particular an ignorable or
empty-text first event silently loses the announcement. -/
theorem c8_role_amended (ctx : StreamCtx) (uuids : List JStr)
    (evs : List StreamChunk) :
    (roleAnnouncements (runTransformer ctx uuids evs) =
      match evs with
      | [] => 0
      | e :: _ => if contentBearing e then 1 else 0) ∧
    (∀ e rest, evs = e :: rest → contentBearing e = true →
      ∃ c out', runTransformer ctx uuids evs = .data c :: out' ∧
        carriesRole (.data c) = true ∧ roleAnnouncements out' = 0) := by
  have hfirstRest : ∀ (e : StreamChunk) (rest : List StreamChunk),
      roleAnnouncements (processEvents ctx
        (transformOne ctx (initState uuids) e).1 rest).2 = 0 := by
    intro e rest
    exact processEvents_role_zero ctx _ rest (by rw [transformOne_fst])
  constructor
  · cases evs with
    | nil =>
      simp only [runTransformer, processEvents]
      rw [roleAnnouncements_append, flushEvents_role_zero]
      simp [roleAnnouncements]
    | cons e rest =>
      simp only [runTransformer, processEvents]
      rw [roleAnnouncements_append, roleAnnouncements_append,
        flushEvents_role_zero, hfirstRest e rest]
      have hone : roleAnnouncements (transformOne ctx (initState uuids) e).2 =
          if contentBearing e then 1 else 0 := by
        cases e with
        | text d =>
          by_cases hd : d = []
          · simp [transformOne, initState, contentBearing, hd, roleAnnouncements]
          · simp [transformOne, initState, contentBearing, hd, roleAnnouncements,
              carriesRole, createChunk, List.filter]
        | reasoning d =>
          simp [transformOne, initState, contentBearing, roleAnnouncements]
        | tool_code n a =>
          simp [transformOne, initState, contentBearing, roleAnnouncements,
            carriesRole, createChunk, List.filter]
      omega
  · intro e rest hevs hcb
    subst hevs
    have hzero : roleAnnouncements ((processEvents ctx
        (transformOne ctx (initState uuids) e).1 rest).2 ++
          flushEvents ctx (processEvents ctx
            (transformOne ctx (initState uuids) e).1 rest).1) = 0 := by
      rw [roleAnnouncements_append, flushEvents_role_zero, hfirstRest e rest]
    cases e with
    | text d =>
      have hd : d ≠ [] := by simpa [contentBearing] using hcb
      refine ⟨createChunk ctx ⟨some "assistant".toList, some d, none⟩ none, _, ?_, ?_, hzero⟩
      · simp [runTransformer, processEvents, transformOne, initState, hd]
      · simp [carriesRole, createChunk]
    | reasoning d => simp [contentBearing] at hcb
    | tool_code n a =>
      have hrun : runTransformer ctx uuids (StreamChunk.tool_code n a :: rest) =
          SseEvent.data (createChunk ctx
              ⟨some "assistant".toList, none,
                some [⟨0, mkToolCallId n (uuids.headD []), some n, some []⟩]⟩ none) ::
            (SseEvent.data (createChunk ctx
              ⟨none, none,
                some [⟨0, mkToolCallId n (uuids.headD []), none, some a⟩]⟩ none) ::
              ((processEvents ctx
                  (transformOne ctx (initState uuids) (StreamChunk.tool_code n a)).1
                  rest).2 ++
                flushEvents ctx (processEvents ctx
                  (transformOne ctx (initState uuids) (StreamChunk.tool_code n a)).1
                  rest).1)) := by
        simp [runTransformer, processEvents, transformOne, initState]
      refine ⟨_, _, hrun, by simp [carriesRole, createChunk], ?_⟩
      have hskip : roleAnnouncements (SseEvent.data (createChunk ctx
          ⟨none, none,
            some [⟨0, mkToolCallId n (uuids.headD []), none, some a⟩]⟩ none) ::
          ((processEvents ctx
              (transformOne ctx (initState uuids) (StreamChunk.tool_code n a)).1
              rest).2 ++
            flushEvents ctx (processEvents ctx
              (transformOne ctx (initState uuids) (StreamChunk.tool_code n a)).1
              rest).1)) =
          roleAnnouncements
            ((processEvents ctx
                (transformOne ctx (initState uuids) (StreamChunk.tool_code n a)).1
                rest).2 ++
              flushEvents ctx (processEvents ctx
                (transformOne ctx (initState uuids) (StreamChunk.tool_code n a)).1
                rest).1) := by
        simp [roleAnnouncements, List.filter_cons, carriesRole, createChunk]
      rw [hskip, hzero]

/-- C8 amended witness: a concrete stream whose first event is a nonempty
text delta announces the role exactly once. -/
theorem c8_role_amended_witness :
    roleAnnouncements (runTransformer ⟨"u".toList, 1, "m".toList⟩ []
        [StreamChunk.text "hi".toList, StreamChunk.reasoning []]) = 1 := by
  have h := (c8_role_amended ⟨"u".toList, 1, "m".toList⟩ []
    [StreamChunk.text "hi".toList, StreamChunk.reasoning []]).1
  simpa using h

/-! Lemmas isolating the tool-call chunks of a run. -/

theorem filter_toolCallChunk_nil (ctx : StreamCtx) (s : TransformerState)
    (evs : List StreamChunk) (h : evs.filter isToolCode = []) :
    (processEvents ctx s evs).2.filter isToolCallChunk = [] := by
  induction evs generalizing s with
  | nil => simp [processEvents]
  | cons ev rest ih =>
    cases ev with
    | text d =>
      have hrest : rest.filter isToolCode = [] := by
        simpa [List.filter_cons, isToolCode] using h
      by_cases hd : d = []
      · simp only [processEvents, transformOne, hd, ne_eq, not_true_eq_false, if_false,
          List.nil_append]
        exact ih _ hrest
      · simp only [processEvents, transformOne, hd, ne_eq, not_false_iff, if_true,
          List.filter_append, List.filter_cons, List.filter_nil]
        rw [ih _ hrest]
        simp [isToolCallChunk, createChunk]
    | reasoning d =>
      have hrest : rest.filter isToolCode = [] := by
        simpa [List.filter_cons, isToolCode] using h
      simp only [processEvents, transformOne, List.nil_append]
      exact ih _ hrest
    | tool_code n a => simp [List.filter_cons, isToolCode] at h

theorem processEvents_single_tool (ctx : StreamCtx) (s : TransformerState)
    (evs : List StreamChunk) (n a : JStr)
    (h : evs.filter isToolCode = [StreamChunk.tool_code n a]) :
    ∃ r, (processEvents ctx s evs).2.filter isToolCallChunk =
      [.data (createChunk ctx ⟨r, none,
          some [⟨s.toolCallIndex, mkToolCallId n (s.uuidSupply.headD []),
            some n, some []⟩]⟩ none),
       .data (createChunk ctx ⟨none, none,
          some [⟨s.toolCallIndex, mkToolCallId n (s.uuidSupply.headD []),
            none, some a⟩]⟩ none)] := by
  induction evs generalizing s with
  | nil => simp at h
  | cons ev rest ih =>
    cases ev with
    | text d =>
      have hrest : rest.filter isToolCode = [StreamChunk.tool_code n a] := by
        simpa [List.filter_cons, isToolCode] using h
      obtain ⟨r, hr⟩ := ih (transformOne ctx s (StreamChunk.text d)).1 hrest
      rw [transformOne_fst] at hr
      simp only [isToolCode, Bool.false_eq_true, if_false] at hr
      refine ⟨r, ?_⟩
      by_cases hd : d = []
      · simp only [processEvents, transformOne, hd, ne_eq, not_true_eq_false, if_false,
          List.nil_append]
        exact hr
      · simp only [processEvents, transformOne, hd, ne_eq, not_false_iff, if_true,
          List.filter_append, List.filter_cons, List.filter_nil]
        have hcc : isToolCallChunk (SseEvent.data (createChunk ctx
            ⟨if s.isFirstChunk then some "assistant".toList else none, some d, none⟩
            none)) = false := by
          simp [isToolCallChunk, createChunk]
        rw [hcc]
        simp only [Bool.false_eq_true, if_false, List.nil_append]
        exact hr
    | reasoning d =>
      have hrest : rest.filter isToolCode = [StreamChunk.tool_code n a] := by
        simpa [List.filter_cons, isToolCode] using h
      obtain ⟨r, hr⟩ := ih (transformOne ctx s (StreamChunk.reasoning d)).1 hrest
      rw [transformOne_fst] at hr
      simp only [isToolCode, Bool.false_eq_true, if_false] at hr
      refine ⟨r, ?_⟩
      simp only [processEvents, transformOne, List.nil_append]
      exact hr
    | tool_code n' a' =>
      have hna : n' = n ∧ a' = a ∧ rest.filter isToolCode = [] := by
        have := h
        simp only [List.filter_cons, isToolCode, if_true] at this
        have h2 := List.cons_eq_cons.mp this
        exact ⟨by injection h2.1, by injection h2.1, h2.2⟩
      obtain ⟨rfl, rfl, hrest⟩ := hna
      refine ⟨if s.isFirstChunk then some "assistant".toList else none, ?_⟩
      simp only [processEvents, transformOne, List.filter_append, List.filter_cons,
        List.filter_nil]
      rw [filter_toolCallChunk_nil ctx _ rest hrest]
      simp [isToolCallChunk, createChunk]

/-- C3. For any event sequence containing exactly one tool-call-request
event, the transformer output consists of frames without finish_reason and
not `[DONE]`, followed by exactly one finish chunk with reason "tool_calls"
and then the `[DONE]` sentinel; and filtering the output for tool-call
chunks yields exactly two chunks at call index 0 — the first carrying the
function name with an empty argument string, the second the same id and
index with the fully serialized arguments. -/
theorem c3_single_tool_call_stream (ctx : StreamCtx) (uuids : List JStr)
    (evs : List StreamChunk) (n a : JStr)
    (h : evs.filter isToolCode = [StreamChunk.tool_code n a]) :
    ∃ r body,
      runTransformer ctx uuids evs =
        body ++ [.data (createChunk ctx ⟨none, none, none⟩ (some "tool_calls".toList)),
          .done] ∧
      (∀ e ∈ body, hasFinishReason e = false ∧ isDone e = false) ∧
      (runTransformer ctx uuids evs).filter isToolCallChunk =
        [.data (createChunk ctx ⟨r, none,
            some [⟨0, mkToolCallId n (uuids.headD []), some n, some []⟩]⟩ none),
         .data (createChunk ctx ⟨none, none,
            some [⟨0, mkToolCallId n (uuids.headD []), none, some a⟩]⟩ none)] := by
  have hidx : (processEvents ctx (initState uuids) evs).1.toolCallIndex = 1 := by
    rw [processEvents_toolCallIndex, h]
    rfl
  have hflush : flushEvents ctx (processEvents ctx (initState uuids) evs).1 =
      [.data (createChunk ctx ⟨none, none, none⟩ (some "tool_calls".toList)), .done] := by
    rw [flushEvents, hidx]
    rfl
  obtain ⟨r, hr⟩ := processEvents_single_tool ctx (initState uuids) evs n a h
  refine ⟨r, (processEvents ctx (initState uuids) evs).2, ?_, ?_, ?_⟩
  · rw [runTransformer, hflush]
  · intro e he
    obtain ⟨δ, rfl⟩ := processEvents_mem ctx _ evs e he
    exact ⟨by simp [hasFinishReason, createChunk], rfl⟩
  · rw [runTransformer, List.filter_append, hflush]
    have hfl : ([.data (createChunk ctx ⟨none, none, none⟩ (some "tool_calls".toList)),
        SseEvent.done].filter isToolCallChunk) = [] := by
      simp [isToolCallChunk, createChunk]
    rw [hfl, List.append_nil, hr]
    rfl

/-- C3 witness: the theorem applied to a concrete one-event stream requesting
the tool f_g with serialized arguments. -/
theorem c3_single_tool_call_stream_witness :
    ∃ r body,
      runTransformer ⟨"u".toList, 5, "m".toList⟩ ["ab".toList]
          [StreamChunk.tool_code "f_g".toList "[1]".toList] =
        body ++ [.data (createChunk ⟨"u".toList, 5, "m".toList⟩ ⟨none, none, none⟩
          (some "tool_calls".toList)), .done] ∧
      (∀ e ∈ body, hasFinishReason e = false ∧ isDone e = false) ∧
      (runTransformer ⟨"u".toList, 5, "m".toList⟩ ["ab".toList]
          [StreamChunk.tool_code "f_g".toList "[1]".toList]).filter isToolCallChunk =
        [.data (createChunk ⟨"u".toList, 5, "m".toList⟩ ⟨r, none,
            some [⟨0, mkToolCallId "f_g".toList (["ab".toList].headD []),
              some "f_g".toList, some []⟩]⟩ none),
         .data (createChunk ⟨"u".toList, 5, "m".toList⟩ ⟨none, none,
            some [⟨0, mkToolCallId "f_g".toList (["ab".toList].headD []),
              none, some "[1]".toList⟩]⟩ none)] :=
  c3_single_tool_call_stream ⟨"u".toList, 5, "m".toList⟩ ["ab".toList]
    [StreamChunk.tool_code "f_g".toList "[1]".toList] "f_g".toList "[1]".toList
    (by decide)

/-- C10 witness: the invariant applied to a concrete one-event stream. -/
theorem c10_header_invariant_witness :
    (createChunk ⟨"u".toList, 7, "m".toList⟩
        ⟨some "assistant".toList, some "hi".toList, none⟩ none).id =
      "chatcmpl-".toList ++ "u".toList ∧
    (createChunk ⟨"u".toList, 7, "m".toList⟩
        ⟨some "assistant".toList, some "hi".toList, none⟩ none).object =
      "chat.completion.chunk".toList ∧
    (createChunk ⟨"u".toList, 7, "m".toList⟩
        ⟨some "assistant".toList, some "hi".toList, none⟩ none).created = 7 ∧
    (createChunk ⟨"u".toList, 7, "m".toList⟩
        ⟨some "assistant".toList, some "hi".toList, none⟩ none).model = "m".toList ∧
    ∃ δ fr, (createChunk ⟨"u".toList, 7, "m".toList⟩
        ⟨some "assistant".toList, some "hi".toList, none⟩ none).choices = [⟨0, δ, fr⟩] :=
  c10_header_invariant ⟨"u".toList, 7, "m".toList⟩ []
    [StreamChunk.text "hi".toList] _ (by decide)

/-! Lemmas about the schema translator. -/

theorem lookup_sizeOf_lt (fs : List (String × JValue)) (k : String) (w : JValue)
    (h : fs.lookup k = some w) : sizeOf w < sizeOf fs := by
  induction fs with
  | nil => simp [List.lookup] at h
  | cons kv rest ih =>
    obtain ⟨k', v'⟩ := kv
    rw [List.lookup] at h
    by_cases hk : (k == k') = true
    · rw [hk] at h
      injection h with h
      subst h
      simp only [List.cons.sizeOf_spec, Prod.mk.sizeOf_spec]
      omega
    · rw [Bool.not_eq_true] at hk
      rw [hk] at h
      have := ih h
      simp only [List.cons.sizeOf_spec]
      omega

theorem getField_sizeOf_lt (v : JValue) (k : String) (w : JValue)
    (h : getField v k = some w) : sizeOf w < sizeOf v := by
  cases v with
  | obj fs =>
    have := lookup_sizeOf_lt fs k w h
    simp only [JValue.obj.sizeOf_spec]
    omega
  | null => simp [getField] at h
  | bool b => simp [getField] at h
  | num n => simp [getField] at h
  | str s => simp [getField] at h
  | arr xs => simp [getField] at h

theorem jsEntries_sizeOf_le (props : JValue) :
    sizeOf (jsEntries props) ≤ sizeOf props := by
  cases props with
  | obj fs => simp [jsEntries]
  | null => simp [jsEntries]
  | bool b => simp [jsEntries]
  | num n => simp [jsEntries]
  | str s => simp [jsEntries]
  | arr xs => simp [jsEntries]

theorem jvalue_sizeOf_pos (v : JValue) : 1 ≤ sizeOf v := by
  cases v <;> simp

theorem requiredOkFields_lookup (fs : List (String × JValue)) (k : String)
    (v : JValue) (hok : requiredOkFields fs = true) (h : fs.lookup k = some v) :
    requiredOk v = true ∧ (k = "required" → reqFieldOk v = true) := by
  induction fs with
  | nil => simp [List.lookup] at h
  | cons kv rest ih =>
    obtain ⟨k', v'⟩ := kv
    rw [requiredOkFields] at hok
    simp only [Bool.and_eq_true] at hok
    rw [List.lookup] at h
    by_cases hk : (k == k') = true
    · rw [hk] at h
      injection h with h
      subst h
      have hkk : k = k' := eq_of_beq hk
      subst hkk
      refine ⟨hok.1.2, fun hkr => ?_⟩
      have := hok.1.1
      rwa [if_pos hkr] at this
    · rw [Bool.not_eq_true] at hk
      rw [hk] at h
      exact ih hok.2 h

theorem requiredOk_getField (v : JValue) (k : String) (w : JValue)
    (hok : requiredOk v = true) (h : getField v k = some w) :
    requiredOk w = true ∧ (k = "required" → reqFieldOk w = true) := by
  cases v with
  | obj fs =>
    rw [requiredOk] at hok
    exact requiredOkFields_lookup fs k w hok h
  | null => simp [getField] at h
  | bool b => simp [getField] at h
  | num n => simp [getField] at h
  | str s => simp [getField] at h
  | arr xs => simp [getField] at h

theorem requiredIncludes_some (r : JValue) (k : String) :
    requiredIncludes (some r) k =
      if truthy r = false then .ok false
      else
        match r with
        | .arr xs => .ok (xs.any fun v =>
            match v with
            | .str s => s = k
            | _ => false)
        | .str s => .ok (decide (List.IsInfix k.toList s.toList))
        | _ => .error "TypeError: includes is not a function" := rfl

theorem requiredIncludes_no_throw (req : Option JValue) (k : String)
    (h : ∀ r, req = some r → reqFieldOk r = true) :
    ∃ b, requiredIncludes req k = Except.ok b := by
  cases req with
  | none => exact ⟨false, rfl⟩
  | some r =>
    have hr := h r rfl
    rw [requiredIncludes_some]
    by_cases htr : truthy r = false
    · exact ⟨false, by rw [if_pos htr]⟩
    · rw [if_neg htr]
      rw [Bool.not_eq_false] at htr
      cases r with
      | arr xs => exact ⟨_, rfl⟩
      | str s => exact ⟨_, rfl⟩
      | null => simp [truthy] at htr
      | bool b =>
        have hb : b = true := by simpa [truthy] using htr
        subst hb
        simp [reqFieldOk, truthy] at hr
      | num n =>
        have hn : ¬n = 0 := by simpa [truthy] using htr
        simp [reqFieldOk, truthy, hn] at hr
      | obj fs => simp [reqFieldOk, truthy] at hr

theorem convert_total_of_requiredOk (N : Nat) :
    (∀ p, 2 * sizeOf p + 1 ≤ N → requiredOk p = true →
      ∃ t, convertProperty p = Except.ok t) ∧
    (∀ js, 2 * sizeOf js ≤ N → requiredOk js = true →
      ∃ sh, convertJsonSchemaToZod js = Except.ok sh) ∧
    (∀ req entries, 2 * sizeOf entries + 1 ≤ N →
      (∀ r, req = some r → reqFieldOk r = true) →
      requiredOkFields entries = true →
      ∃ sh, convertShapeFields req entries = Except.ok sh) := by
  induction N using Nat.strong_induction_on with
  | _ N ih =>
  refine ⟨?_, ?_, ?_⟩
  · intro p hN hok
    by_cases h1 : truthy p = false
    · exact ⟨.anyTy, by rw [convertProperty, if_pos h1]⟩
    · by_cases h2 : truthyOpt (getField p "type") = false
      · exact ⟨.anyTy, by rw [convertProperty, if_neg h1, if_pos h2]⟩
      · have hex : ∃ t, getField p "type" = some t := by
          rcases hw : getField p "type" with _ | t
          · exact absurd (by rw [hw]; rfl) h2
          · exact ⟨t, rfl⟩
        obtain ⟨t, hty⟩ := hex
        rw [convertProperty, if_neg h1, if_neg h2]
        cases t with
        | str s =>
          by_cases hstr : s = "string"
          · subst hstr
            simp only [hty]
            exact ⟨.stringTy, rfl⟩
          · by_cases hnum : s = "number"
            · subst hnum
              simp only [hty]
              exact ⟨.numberTy, rfl⟩
            · by_cases hbool : s = "boolean"
              · subst hbool
                simp only [hty]
                exact ⟨.booleanTy, rfl⟩
              · by_cases harr : s = "array"
                · subst harr
                  simp only [hty]
                  have hex2 : getField p "items" = none ∨
                      ∃ it, getField p "items" = some it := by
                    rcases getField p "items" with _ | it
                    · exact Or.inl rfl
                    · exact Or.inr ⟨it, rfl⟩
                  rcases hex2 with hit | ⟨it, hit⟩
                  · exact ⟨.arrayTy .anyTy, by split <;> simp_all⟩
                  · by_cases hti : truthy it = false
                    · refine ⟨.arrayTy .anyTy, ?_⟩
                      split
                      · rename_i heq
                        simp_all
                      · rename_i it' heq
                        rw [hit] at heq
                        injection heq with heq
                        subst heq
                        rw [if_pos hti]
                    · have hsz : sizeOf it < sizeOf p :=
                        getField_sizeOf_lt p "items" it hit
                      have hokit : requiredOk it = true :=
                        (requiredOk_getField p "items" it hok hit).1
                      obtain ⟨t, hted⟩ :=
                        (ih (2 * sizeOf p) (by omega)).1 it (by omega) hokit
                      refine ⟨.arrayTy t, ?_⟩
                      split
                      · rename_i heq
                        simp_all
                      · rename_i it' heq
                        rw [hit] at heq
                        injection heq with heq
                        subst heq
                        rw [if_neg hti, hted]
                · by_cases hobj : s = "object"
                  · subst hobj
                    simp only [hty]
                    obtain ⟨sh, hsh⟩ :=
                      (ih (2 * sizeOf p) (by omega)).2.1 p (by omega) hok
                    exact ⟨.objectTy sh, by rw [hsh]⟩
                  · simp only [hty]
                    refine ⟨.anyTy, ?_⟩
                    split <;> simp_all
        | null =>
          rw [hty] at h2
          exact absurd rfl h2
        | bool b =>
          by_cases hb : b = true
          · subst hb
            simp only [hty]
            exact ⟨.anyTy, rfl⟩
          · rw [hty] at h2
            simp only [Bool.not_eq_true] at hb
            subst hb
            exact absurd rfl h2
        | num n =>
          simp only [hty]
          exact ⟨.anyTy, rfl⟩
        | arr xs =>
          simp only [hty]
          exact ⟨.anyTy, rfl⟩
        | obj fs =>
          simp only [hty]
          exact ⟨.anyTy, rfl⟩
  · intro js hN hok
    by_cases h1 : truthy js = false
    · exact ⟨.nil, by rw [convertJsonSchemaToZod, if_pos h1]⟩
    · have hex : getField js "properties" = none ∨
          ∃ props, getField js "properties" = some props := by
        rcases getField js "properties" with _ | props
        · exact Or.inl rfl
        · exact Or.inr ⟨props, rfl⟩
      rw [convertJsonSchemaToZod, if_neg h1]
      rcases hex with hp | ⟨props, hp⟩
      · refine ⟨.nil, ?_⟩
        split
        · rfl
        · rename_i props' heq
          simp_all
      · by_cases h2 : truthy props = false
        · refine ⟨.nil, ?_⟩
          split
          · rfl
          · rename_i props' heq
            rw [hp] at heq
            injection heq with heq
            subst heq
            rw [if_pos h2]
        · have hpsz : sizeOf props < sizeOf js :=
            getField_sizeOf_lt js "properties" props hp
          have hesz : sizeOf (jsEntries props) ≤ sizeOf props := jsEntries_sizeOf_le props
          have hreq : ∀ r, getField js "required" = some r → reqFieldOk r = true :=
            fun r hr => (requiredOk_getField js "required" r hok hr).2 rfl
          have hokp : requiredOk props = true :=
            (requiredOk_getField js "properties" props hok hp).1
          have hentok : requiredOkFields (jsEntries props) = true := by
            cases props with
            | obj fs => rw [requiredOk] at hokp; exact hokp
            | null => simp [jsEntries, requiredOkFields]
            | bool b => simp [jsEntries, requiredOkFields]
            | num n => simp [jsEntries, requiredOkFields]
            | str s => simp [jsEntries, requiredOkFields]
            | arr xs => simp [jsEntries, requiredOkFields]
          have hde : 1 ≤ sizeOf js := jvalue_sizeOf_pos js
          obtain ⟨sh, hsh⟩ := ((ih (2 * sizeOf js - 1) (by omega)).2.2
            (getField js "required") (jsEntries props) (by omega) hreq hentok)
          refine ⟨sh, ?_⟩
          split
          · rename_i heq
            simp_all
          · rename_i props' heq
            rw [hp] at heq
            injection heq with heq
            subst heq
            rw [if_neg h2, hsh]
  · intro req entries hN hreq hok
    cases entries with
    | nil => exact ⟨.nil, by rw [convertShapeFields]⟩
    | cons kv rest =>
      obtain ⟨k, v⟩ := kv
      rw [requiredOkFields] at hok
      simp only [Bool.and_eq_true] at hok
      have hvsz : sizeOf v < sizeOf ((k, v) :: rest) := by
        simp only [List.cons.sizeOf_spec, Prod.mk.sizeOf_spec]
        omega
      have hrsz : sizeOf rest < sizeOf ((k, v) :: rest) := by
        simp only [List.cons.sizeOf_spec]
        omega
      obtain ⟨ty, hty⟩ := (ih (2 * sizeOf ((k, v) :: rest)) (by omega)).1 v (by omega) hok.1.2
      obtain ⟨inc, hinc⟩ := requiredIncludes_no_throw req k hreq
      obtain ⟨tail, htail⟩ := (ih (2 * sizeOf rest + 1) (by omega)).2.2 req rest
        (by omega) hreq hok.2
      refine ⟨.cons k ty (!inc) tail, ?_⟩
      rw [convertShapeFields, hty, hinc, htail]

/-- C6 counterexample: the claim says schema translation never throws, but a
schema whose `required` field is a truthy value without an `.includes`
method (here the number 5) makes the translator evaluate
`jsonSchema.required.includes(key)` and raise a TypeError. -/
theorem c6_schema_counterexample :
    convertJsonSchemaToZod (JValue.obj
      [("properties", JValue.obj [("a", JValue.obj [("type", JValue.str "string")])]),
       ("required", JValue.num 5)]) =
      Except.error "TypeError: includes is not a function" := by
  simp [convertJsonSchemaToZod, convertShapeFields, convertProperty, requiredIncludes,
    getField, jsEntries, truthy, truthyOpt, List.lookup]

/-- C6 amended: a property of type "array" without an `items` field
translates to `z.array(z.any())`, which accepts every array; missing or
unknown type declarations degrade to `z.any()`, which accepts everything;
and the translation never throws provided every field named "required"
reachable in the schema is falsy, an array, or a string — a truthy
`required` of any other kind (e.g. a number) raises a TypeError. -/
theorem c6_schema_amended (js prop : JValue) (xs : List JValue) (s : String)
    (v : Option JValue) :
    (requiredOk js = true → ∃ sh, convertJsonSchemaToZod js = Except.ok sh) ∧
    (truthy prop = true → getField prop "type" = some (.str "array") →
      getField prop "items" = none →
      convertProperty prop = Except.ok (.arrayTy .anyTy)) ∧
    zodAccepts (.arrayTy .anyTy) (some (.arr xs)) = true ∧
    (truthyOpt (getField prop "type") = false →
      convertProperty prop = Except.ok .anyTy) ∧
    (truthy prop = true → getField prop "type" = some (.str s) → s ≠ "" →
      s ≠ "string" → s ≠ "number" → s ≠ "boolean" → s ≠ "array" → s ≠ "object" →
      convertProperty prop = Except.ok .anyTy) ∧
    zodAccepts .anyTy v = true := by
  refine ⟨?_, ?_, ?_, ?_, ?_, ?_⟩
  · intro hok
    exact (convert_total_of_requiredOk (2 * sizeOf js)).2.1 js (by omega) hok
  · intro ht hty hit
    rw [convertProperty, ht]
    simp only [hty, hit, truthyOpt]
    simp only [Bool.true_eq_false, if_false]
    rw [show truthy (JValue.str "array") = true from rfl]
    simp only [Bool.true_eq_false, if_false]
    split <;> simp_all
  · rw [zodAccepts]
    exact List.all_eq_true.mpr fun x hx => by rw [zodAccepts]
  · intro h
    rw [convertProperty]
    by_cases htp : truthy prop = false
    · simp [htp]
    · simp [htp, h]
  · intro ht hty hs h1 h2 h3 h4 h5
    rw [convertProperty, ht]
    simp only [hty, truthyOpt]
    rw [show truthy (JValue.str s) = true by simp [truthy, hs]]
    simp only [Bool.true_eq_false, if_false]
    split <;> simp_all
  · rw [zodAccepts]

/-- C6 amended witness: a concrete schema with one string property and an
array-valued `required` translates without error, and the array-without-items
fallback accepts a concrete heterogeneous array. -/
theorem c6_schema_amended_witness :
    (∃ sh, convertJsonSchemaToZod (JValue.obj
      [("properties", JValue.obj [("a", JValue.obj [("type", JValue.str "string")])]),
       ("required", JValue.arr [JValue.str "a"])]) = Except.ok sh) ∧
    convertProperty (JValue.obj [("type", JValue.str "array")]) =
      Except.ok (.arrayTy .anyTy) ∧
    zodAccepts (.arrayTy .anyTy) (some (.arr [JValue.num 3, JValue.null])) = true := by
  have h := c6_schema_amended (JValue.obj
      [("properties", JValue.obj [("a", JValue.obj [("type", JValue.str "string")])]),
       ("required", JValue.arr [JValue.str "a"])])
    (JValue.obj [("type", JValue.str "array")])
    [JValue.num 3, JValue.null] "x" none
  refine ⟨h.1 ?_, h.2.1 rfl (by simp [getField, List.lookup]) (by simp [getField, List.lookup]),
    h.2.2.1⟩
  simp [requiredOk, requiredOkFields, requiredOkList, reqFieldOk, truthy]

/-- C2 counterexample: the claim promises a 400 JSON-RPC error for every
non-initialize request whose session id is not in the session map, but the
map is a plain object literal, so the session id "constructor" — absent
from the (empty) map — finds the inherited `Object.prototype.constructor`,
a truthy non-session: the `!session` branch is skipped and the TypeError
from `session.transport.handleRequest` is answered with status 500. -/
theorem c2_unknown_session_counterexample :
    handleMcpRequest [] (some "constructor") false true "fresh" ⟨2, 2⟩ =
      (.handlerThrew 500, ([] : List (String × McpSession))) ∧
    McpHttpResponse.handlerThrew 500 ≠
      .jsonRpcError 400
        ⟨"2.0", -32000, "Bad Request: Mcp-Session-Id header is required", true⟩ := by
  constructor
  · rfl
  · decide

/-- C2 amended: a non-initialize request whose session id is absent, empty,
or bracket-resolves to nothing (neither an own key of the session map nor an
inherited `Object.prototype` member name) is answered with HTTP 400 and the
JSON-RPC-shaped error body, the session map unchanged; but a session id
naming an inherited `Object.prototype` member that is not a stored session
id skips the 400 branch and is answered 500 by the catch around
`handleRequest`, also creating no session. -/
theorem c2_unknown_session_amended (sessions : List (String × McpSession))
    (sessionId : Option String) (creationOk : Bool) (newId : String)
    (newSession : McpSession) :
    (findSession sessions sessionId = .noSession →
      handleMcpRequest sessions sessionId false creationOk newId newSession =
        (.jsonRpcError 400
          ⟨"2.0", -32000, "Bad Request: Mcp-Session-Id header is required", true⟩,
          sessions)) ∧
    (∀ sid, sessionId = some sid → sid ∈ objectProtoKeys →
      sessions.lookup sid = none →
      handleMcpRequest sessions sessionId false creationOk newId newSession =
        (.handlerThrew 500, sessions)) := by
  constructor
  · intro h
    rw [handleMcpRequest, h]
    rfl
  · intro sid hsid hmem hlk
    subst hsid
    have hne : ¬ sid = "" := by
      intro h
      subst h
      exact absurd hmem (by decide)
    have hf : findSession sessions (some sid) = .protoMember := by
      have hstep : findSession sessions (some sid) =
          if sid = "" then .noSession else bracketLookup sessions sid := rfl
      rw [hstep, if_neg hne, bracketLookup, hlk, if_pos hmem]
    rw [handleMcpRequest, hf]

/-- C2 amended witness: against a concrete one-session map, an unknown
ordinary session id gets the 400 body with the map unchanged, while the
prototype member name "toString" gets the 500 catch path. -/
theorem c2_unknown_session_amended_witness :
    handleMcpRequest [("s1", ⟨1, 1⟩)] (some "s2") false true "fresh" ⟨2, 2⟩ =
      (.jsonRpcError 400
        ⟨"2.0", -32000, "Bad Request: Mcp-Session-Id header is required", true⟩,
        [("s1", ⟨1, 1⟩)]) ∧
    handleMcpRequest [("s1", ⟨1, 1⟩)] (some "toString") false true "fresh" ⟨2, 2⟩ =
      (.handlerThrew 500, [("s1", ⟨1, 1⟩)]) := by
  constructor
  · exact (c2_unknown_session_amended [("s1", ⟨1, 1⟩)] (some "s2")
      true "fresh" ⟨2, 2⟩).1 (by decide)
  · exact (c2_unknown_session_amended [("s1", ⟨1, 1⟩)] (some "toString")
      true "fresh" ⟨2, 2⟩).2 "toString" rfl (by decide) (by decide)

/-- C5. The translator's payload for a tool-result message is always an
object: a parse to a non-null, non-array object passes through unchanged,
and every other parse outcome (array, primitive, null, or unparseable
string) is wrapped under the single synthetic "output" field of a fresh
object; the message-level translation forwards exactly this payload. -/
theorem c5_tool_result_payload (raw : String) (parsed : Option JValue)
    (tid : Option JStr) :
    isPlainObject (toolResponsePayload raw parsed) = true ∧
    (∀ fs, parsed = some (.obj fs) → toolResponsePayload raw parsed = .obj fs) ∧
    (∀ v, parsed = some v → isPlainObject v = false →
      toolResponsePayload raw parsed = .obj [("output", v)]) ∧
    (parsed = none → toolResponsePayload raw parsed = .obj [("output", .str raw)]) ∧
    (openAIToolMessageToGemini tid raw parsed).responsePayload =
      toolResponsePayload raw parsed := by
  refine ⟨?_, ?_, ?_, ?_, rfl⟩
  · match parsed with
    | none => rfl
    | some v =>
      cases v <;> rfl
  · rintro fs rfl
    rfl
  · rintro v rfl hv
    simp [toolResponsePayload, hv]
  · rintro rfl
    rfl

/-- C5 witness: a bare JSON array parse outcome is wrapped under the
synthetic field. -/
theorem c5_tool_result_payload_witness :
    toolResponsePayload "[1]" (some (JValue.arr [JValue.num 1])) =
      JValue.obj [("output", JValue.arr [JValue.num 1])] :=
  (c5_tool_result_payload "[1]" (some (JValue.arr [JValue.num 1])) none).2.2.1
    (JValue.arr [JValue.num 1]) rfl rfl

/-- C7. A chat-completions request with stream set to false is answered with
the non-2xx status 501 and a JSON error body and never opens an
event-stream, while an absent stream field defaults to streaming mode. -/
theorem c7_stream_false_rejected :
    handleChatCompletions (some false) =
      .notImplemented 501 "Non-streaming responses are not yet implemented." ∧
    handleChatCompletions (some false) ≠ .streaming ∧
    ¬ is2xx 501 ∧
    handleChatCompletions none = .streaming ∧
    handleChatCompletions (some true) = .streaming := by
  refine ⟨rfl, by decide, ?_, rfl, rfl⟩
  intro h
  exact absurd h.2 (by omega)

/-- C9 counterexample: the claim maps every non-auto, non-function-specific
directive to the generic "require a function call" mode (mode ANY), but the
code sets mode AUTO for such directives — here the directive "required". -/
theorem c9_tool_choice_counterexample :
    buildToolConfig (some (.choiceStr "required")) =
      some ⟨.AUTO, none⟩ ∧
    FunctionCallingMode.AUTO ≠ FunctionCallingMode.ANY := by
  constructor
  · rfl
  · decide

/-- C9 amended: a tool_choice of type "function" maps to mode ANY restricted
to that one function name; an absent or "auto" tool_choice sets no
toolConfig; and every other present, truthy, non-auto directive sets a
toolConfig whose mode is AUTO (not the generic require-a-call mode ANY). -/
theorem c9_tool_choice_amended (n : String) (c : JsToolChoice) :
    buildToolConfig (some (.choiceObj (some "function") (some n))) =
      some ⟨.ANY, some [n]⟩ ∧
    buildToolConfig none = none ∧
    buildToolConfig (some (.choiceStr "auto")) = none ∧
    (toolChoiceTruthy c = true → c ≠ .choiceStr "auto" →
      (∀ t f, c = .choiceObj t f → t ≠ some "function") →
      ∃ al, buildToolConfig (some c) = some ⟨.AUTO, al⟩) := by
  refine ⟨rfl, rfl, by simp [buildToolConfig, toolChoiceTruthy], ?_⟩
  intro htru hne hnotfn
  cases c with
  | choiceStr s =>
    refine ⟨none, ?_⟩
    have hunfold : buildToolConfig (some (JsToolChoice.choiceStr s)) =
        if toolChoiceTruthy (JsToolChoice.choiceStr s) = true ∧
            JsToolChoice.choiceStr s ≠ JsToolChoice.choiceStr "auto" then
          some ⟨.AUTO, none⟩
        else none := rfl
    rw [hunfold, if_pos ⟨htru, hne⟩]
  | choiceObj t f =>
    have ht : t ≠ some "function" := hnotfn t f rfl
    cases t with
    | none =>
      refine ⟨(f.map fun nm => [nm]), ?_⟩
      have hunfold : buildToolConfig (some (JsToolChoice.choiceObj none f)) =
          if toolChoiceTruthy (JsToolChoice.choiceObj none f) = true ∧
              JsToolChoice.choiceObj none f ≠ JsToolChoice.choiceStr "auto" then
            some ⟨.AUTO, (match f with | some nm => some [nm] | none => none)⟩
          else none := by
        cases f with
        | none => rfl
        | some nm => rfl
      rw [hunfold, if_pos ⟨htru, hne⟩]
      cases f with
      | none => rfl
      | some nm => rfl
    | some tv =>
      have htv : tv ≠ "function" := fun hh => ht (by rw [hh])
      refine ⟨(f.map fun nm => [nm]), ?_⟩
      have hunfold : buildToolConfig (some (JsToolChoice.choiceObj (some tv) f)) =
          if toolChoiceTruthy (JsToolChoice.choiceObj (some tv) f) = true ∧
              JsToolChoice.choiceObj (some tv) f ≠ JsToolChoice.choiceStr "auto" then
            some ⟨if tv = "function" then .ANY else .AUTO,
              (match f with | some nm => some [nm] | none => none)⟩
          else none := by
        cases f with
        | none => rfl
        | some nm => rfl
      rw [hunfold, if_pos ⟨htru, hne⟩, if_neg htv]
      cases f with
      | none => rfl
      | some nm => rfl

/-- C9 amended witness: the amended statement applied to the concrete
directive "required". -/
theorem c9_tool_choice_amended_witness :
    ∃ al, buildToolConfig (some (.choiceStr "required")) =
      some ⟨FunctionCallingMode.AUTO, al⟩ :=
  (c9_tool_choice_amended "f" (.choiceStr "required")).2.2.2
    (by decide) (by decide) (by intro t f h; cases h)

end Bridge
